import Mathlib

/-!
Verification development for tern's Dockerfile transformation core
(`tern/analyze/docker/dockerfile.py`).

Strings are modelled as lists of characters; Python string primitives
(`str.replace`, `str.split`, `str.strip`, `str.startswith`) are modelled
by executable functions below.  External collaborators (the container
inspection and git provenance helpers) are parameters of the functions
that consume them.
-/

abbrev Str := List Char

/-- Model of Python `s.replace(p, r)` with fuel; a call with fuel at least
`s.length` realises the semantics: scan left to right, replace each
non-overlapping occurrence of `p` by `r`, never rescanning replaced text. -/
def pyReplaceF (p r : Str) : Nat → Str → Str
  | _, [] => []
  | 0, s => s
  | fuel + 1, c :: rest =>
    if p.isPrefixOf (c :: rest) then r ++ pyReplaceF p r fuel (rest.drop (p.length - 1))
    else c :: pyReplaceF p r fuel rest

/-- Model of Python `s.replace(p, r)` for a non-empty pattern `p`; every
pattern passed by this code base starts with a dollar sign, so the
empty-pattern behaviour of Python (interleaving) is not modelled. -/
def pyReplace (p r s : Str) : Str :=
  if p = [] then s else pyReplaceF p r s.length s

/-- Model of Python `s.replace(p, r, 1)`: replace the first occurrence only. -/
def pyReplaceFirst (p r : Str) : Str → Str
  | [] => if p.isPrefixOf [] then r else []
  | c :: rest =>
    if p.isPrefixOf (c :: rest) then r ++ (c :: rest).drop p.length
    else c :: pyReplaceFirst p r rest

/-- Model of Python `s.split(sep)` for a one-character separator: adjacent
separators produce empty fields and the empty string yields one empty field. -/
def pySplit (sep : Char) : Str → List Str
  | [] => [[]]
  | c :: rest =>
    if c = sep then [] :: pySplit sep rest
    else
      match pySplit sep rest with
      | [] => [[c]]
      | t :: ts => (c :: t) :: ts

/-- Model of Python `s.strip(c)` for a one-character argument: remove every
copy of `c` from both ends. -/
def pyStrip (c : Char) (s : Str) : Str :=
  ((s.dropWhile (· = c)).reverse.dropWhile (· = c)).reverse

/-- Occurrence test: `containsSub p s = true` iff `p` occurs as a contiguous
substring of `s`. -/
def containsSub (p : Str) : Str → Bool
  | [] => p.isPrefixOf []
  | c :: rest => p.isPrefixOf (c :: rest) || containsSub p rest

/-- Concatenation of a list of strings, used to collect logged messages. -/
def listJoin : List (List α) → List α
  | [] => []
  | x :: xs => x ++ listJoin xs

/-- One entry of the parser structure: directive keyword, argument text and
the full reconstructable source line. -/
structure InstructionRec where
  instruction : Str
  value : Str
  content : Str
deriving DecidableEq, Repr

/-- The Dockerfile object: ordered instruction records, the ENV mappings
(insertion-ordered key/value pairs, as Python dictionaries are), the
previous-stage environment, the file path and the parent image list. -/
structure Dockerfile where
  structure_ : List InstructionRec
  envs : List (Str × Str)
  prev_env : List (Str × Str)
  filepath : Str
  parent_images : List Str
deriving DecidableEq, Repr

def sFROM : Str := "FROM".toList
def sARG : Str := "ARG".toList
def sADD : Str := "ADD".toList

/-- The `$KEY` form of a variable occurrence. -/
def varPatPlain (k : Str) : Str := '$' :: k

/-- The `\x7b`-delimited form of a variable occurrence, `$` `{` KEY `}`. -/
def varPatBraced (k : Str) : Str := '$' :: '{' :: (k ++ ['}'])

/-- One iteration of `replace_env`'s loop body for a single key/value pair:
replace `$KEY` then the braced form, in both `content` and `value`. -/
def replace_env_step (rec : InstructionRec) (kv : Str × Str) : InstructionRec :=
  { rec with
    content := pyReplace (varPatBraced kv.1) kv.2 (pyReplace (varPatPlain kv.1) kv.2 rec.content)
    value := pyReplace (varPatBraced kv.1) kv.2 (pyReplace (varPatPlain kv.1) kv.2 rec.value) }

/-- Model of `replace_env`: iterate over the key/value pairs in insertion
order, substituting into the record's `content` and `value`. -/
def replace_env (key_value_dict : List (Str × Str)) (rec : InstructionRec) : InstructionRec :=
  key_value_dict.foldl replace_env_step rec

/-- One guarded substitution pass of `expand_vars`/`expand_arg`: Python's
`if mapping:` guard followed by the loop applying `replace_env` to every
record of the structure. -/
def apply_mapping (m : List (Str × Str)) (d : Dockerfile) : Dockerfile :=
  if m = [] then d else { d with structure_ := d.structure_.map (replace_env m) }

/-- Model of `expand_vars`: substitute `envs`, then `prev_env`. -/
def expand_vars (dfobj : Dockerfile) : Dockerfile :=
  apply_mapping dfobj.prev_env (apply_mapping dfobj.envs dfobj)

/-- Prefix of a FROM value up to the first case-insensitive " as", the model
of `re.split(" as", value, flags=re.IGNORECASE)[0]`. -/
def upto_as : Str → Str
  | ' ' :: a :: s :: rest =>
    if (a = 'a' ∨ a = 'A') ∧ (s = 's' ∨ s = 'S') then []
    else ' ' :: upto_as (a :: s :: rest)
  | c :: rest => c :: upto_as rest
  | [] => []

/-- Model of `update_parent_images`: rebuild `parent_images` from the FROM
records of the structure, in order. -/
def update_parent_images (dfobj : Dockerfile) : Dockerfile :=
  { dfobj with
    parent_images :=
      (dfobj.structure_.filter (fun r => r.instruction == sFROM)).map (fun r => upto_as r.value) }

/-- The ARG-dictionary contribution of one record: an ARG whose value splits
on `=` into exactly two fields yields the space-stripped key/value pair. -/
def argPairOf (rec : InstructionRec) : Option (Str × Str) :=
  if rec.instruction = sARG then
    match pySplit '=' rec.value with
    | [k, v] => some (pyStrip ' ' k, pyStrip ' ' v)
    | _ => none
  else none

/-- Python-dictionary insertion: overwrite in place if the key exists,
otherwise append, preserving insertion order. -/
def dictInsert (d : List (Str × Str)) (k v : Str) : List (Str × Str) :=
  if d.any (fun kv => kv.1 == k) then d.map (fun kv => if kv.1 = k then (k, v) else kv)
  else d ++ [(k, v)]

/-- The ARG dictionary scan of `expand_arg`: fold over the structure
collecting defaults of ARG instructions. -/
def build_arg_dict (l : List InstructionRec) : List (Str × Str) :=
  l.foldl
    (fun dict rec =>
      match argPairOf rec with
      | some (k, v) => dictInsert dict k v
      | none => dict)
    []

/-- Model of `expand_arg`: build the ARG dictionary from the whole file,
substitute it everywhere if non-empty, then refresh `parent_images`. -/
def expand_arg (dfobj : Dockerfile) : Dockerfile :=
  update_parent_images (apply_mapping (build_arg_dict dfobj.structure_) dfobj)

/-- Modelled from the spec: the driver that runs the substitution passes is
not among the sources under analysis; the spec fixes the order as the ENV
pass followed by the ARG pass. -/
def expand_all (dfobj : Dockerfile) : Dockerfile :=
  expand_arg (expand_vars dfobj)

/-- Modelled from the spec: `tern.utils.general.parse_image_string` is not
among the sources under analysis; the spec gives the parsed shape
`name`/`tag`/`digest_type`/`digest`, with pinned references written
`name@digest_type:digest` and tag references written `name:tag`. -/
structure ImageRef where
  name : Str
  tag : Str
  digest_type : Str
  digest : Str
deriving DecidableEq, Repr

/-- Modelled from the spec: parse a parent-image string into the reference
shape described in the spec; absent parts are empty. -/
def parse_image_string (s : Str) : ImageRef :=
  if '@' ∈ s then
    let name := s.takeWhile (· ≠ '@')
    let rest := (s.dropWhile (· ≠ '@')).drop 1
    if ':' ∈ rest then
      { name := name, tag := [],
        digest_type := rest.takeWhile (· ≠ ':'),
        digest := (rest.dropWhile (· ≠ ':')).drop 1 }
    else
      { name := name, tag := [], digest_type := rest, digest := [] }
  else if ':' ∈ s then
    { name := s.takeWhile (· ≠ ':'), tag := (s.dropWhile (· ≠ ':')).drop 1,
      digest_type := [], digest := [] }
  else
    { name := s, tag := [], digest_type := [], digest := [] }

/-- Model of `parse_from_image`: parse every parent image string. -/
def parse_from_image (dfobj : Dockerfile) : List ImageRef :=
  dfobj.parent_images.map parse_image_string

/-- The `name:tag` string queried for a parent image, with the tag defaulted
to `latest` when absent. -/
def lookup_query (s : Str) : Str :=
  let img := parse_image_string s
  let tag := if img.tag = [] then "latest".toList else img.tag
  img.name ++ ':' :: tag

/-- The logged message for a failed pinning lookup. -/
def pin_error_msg (s : Str) : Str :=
  "Error pinning digest to '".toList ++ s ++ "'. Image not found.".toList

/-- One iteration of `expand_from_images`'s first loop, acting on the single
parent-image entry it touches.  Returns the new entry, the `get_image`
queries issued, and the errors logged.  The loop body reads and writes only
the entry of its own index, so the loop is this function mapped over
`parent_images`. -/
def resolve_image {α : Type} (get_image : Str → Option α) (get_image_digest : α → Str)
    (s : Str) : Str × List Str × List Str :=
  let img := parse_image_string s
  if img.digest_type = [] ∧ img.digest = [] then
    match get_image (lookup_query s) with
    | some image => (get_image_digest image, [lookup_query s], [])
    | none => (s, [lookup_query s], [pin_error_msg s])
  else (s, [], [])

/-- The second loop of `expand_from_images`: rewrite each FROM record from
the resolved parent-image list, consuming entries by a running counter. -/
def pin_structure (ps : List Str) : Nat → List InstructionRec → List InstructionRec
  | _, [] => []
  | counter, rec :: rest =>
    if rec.instruction == sFROM then
      { rec with
        content := rec.instruction ++ ' ' :: ps.getD counter [] ++ ['\n'],
        value := ps.getD counter [] } :: pin_structure ps (counter + 1) rest
    else rec :: pin_structure ps counter rest

/-- The outcome of `expand_from_images`: the mutated object together with
the `get_image` queries issued and the errors logged. -/
structure PinOutcome where
  dfobj : Dockerfile
  queries : List Str
  errors : List Str
deriving Repr

/-- Model of `expand_from_images`, parameterised by the external container
inspection collaborators `get_image` and `get_image_digest`. -/
def expand_from_images {α : Type} (get_image : Str → Option α) (get_image_digest : α → Str)
    (dfobj : Dockerfile) : PinOutcome :=
  let results := dfobj.parent_images.map (resolve_image get_image get_image_digest)
  let new_pis := results.map (fun t => t.1)
  { dfobj :=
      { dfobj with
        parent_images := new_pis,
        structure_ := pin_structure new_pis 0 dfobj.structure_ },
    queries := listJoin (results.map (fun t => t.2.1)),
    errors := listJoin (results.map (fun t => t.2.2)) }

/-- Model of `expand_package`: pin `package` to `version` in the record's
value (first occurrence only) and regenerate `content` from the parts. -/
def expand_package (command_dict : InstructionRec) (package version pinning_separator : Str) :
    InstructionRec :=
  let v := pyReplaceFirst package (package ++ pinning_separator ++ version) command_dict.value
  { command_dict with
    value := v,
    content := command_dict.instruction ++ ' ' :: v ++ ['\n'] }

/-- The logged message for an ADD line with too few tokens. -/
def invalid_add_msg : Str := "Invalid ADD command line".toList

/-- Model of `find_git_info`, parameterised by the external git provenance
collaborator `check_git_src`.  Returns the comment line and the logged
errors, or `none` where the Python code raises `IndexError` on a token
access past the end of the split line. -/
def find_git_info (check_git_src : Str → Str) (line dockerfile_path : Str) :
    Option (Str × List Str) :=
  let args := pySplit ' ' line
  match args[1]? with
  | none => none
  | some a1 =>
    if "--chown".toList.isPrefixOf a1 then
      let errs := if args.length < 4 then [invalid_add_msg] else []
      match args[2]? with
      | none => none
      | some _ => some (check_git_src dockerfile_path, errs)
    else
      let errs := if args.length < 3 then [invalid_add_msg] else []
      some (check_git_src dockerfile_path, errs)

/-- The mutation `expand_add_command` applies to one ADD record: append the
comment to the newline-stripped content and to the value. -/
def annotate_add (comment_line : Str) (rec : InstructionRec) : InstructionRec :=
  { rec with
    content := pyStrip '\n' rec.content ++ ' ' :: '#' :: ' ' :: comment_line ++ ['\n'],
    value := rec.value ++ ' ' :: '#' :: ' ' :: comment_line }

/-- The loop of `expand_add_command` over the structure, threading the
logged errors; `none` models an uncaught `IndexError` from
`find_git_info`. -/
def annotate_structure (check_git_src : Str → Str) (path : Str) :
    List InstructionRec → Option (List InstructionRec × List Str)
  | [] => some ([], [])
  | rec :: rest =>
    if rec.instruction = sADD then
      match find_git_info check_git_src rec.content path with
      | none => none
      | some (comment_line, errs) =>
        match annotate_structure check_git_src path rest with
        | none => none
        | some (rest', errs') => some (annotate_add comment_line rec :: rest', errs ++ errs')
    else
      match annotate_structure check_git_src path rest with
      | none => none
      | some (rest', errs') => some (rec :: rest', errs')

/-- Model of `expand_add_command`, parameterised by the external
`check_git_src` collaborator. -/
def expand_add_command (check_git_src : Str → Str) (dfobj : Dockerfile) :
    Option (Dockerfile × List Str) :=
  match annotate_structure check_git_src dfobj.filepath dfobj.structure_ with
  | none => none
  | some (l, errs) => some ({ dfobj with structure_ := l }, errs)

/-- Number of FROM records in a structure. -/
def countFROM (l : List InstructionRec) : Nat :=
  (l.filter (fun r => r.instruction == sFROM)).length

/-- The round-trip invariant of the spec: the content line is the directive
keyword, a space, the value and a newline. -/
def content_ok (rec : InstructionRec) : Prop :=
  rec.content = rec.instruction ++ ' ' :: rec.value ++ ['\n']

/-- No occurrence of either textual form of variable `k` in `s`. -/
def noVarIn (k s : Str) : Prop :=
  containsSub (varPatPlain k) s = false ∧ containsSub (varPatBraced k) s = false

instance (k s : Str) : Decidable (noVarIn k s) := by
  unfold noVarIn; infer_instance

instance (rec : InstructionRec) : Decidable (content_ok rec) := by
  unfold content_ok; infer_instance

/-- Default record used when indexing concrete structures. -/
def recDflt : InstructionRec := { instruction := [], value := [], content := [] }

/-- Scenario input of C2: a FROM line using an ARG that is declared later. -/
def dfC2 : Dockerfile :=
  { structure_ :=
      [ { instruction := "FROM".toList, value := "python:${VER}".toList,
          content := "FROM python:${VER}\n".toList },
        { instruction := "ARG".toList, value := "VER=3.9".toList,
          content := "ARG VER=3.9\n".toList } ],
    envs := [], prev_env := [], filepath := [],
    parent_images := ["python:${VER}".toList] }

/-- Record whose value holds a variable occurrence, for the substitution
counterexamples. -/
def recC4 : InstructionRec :=
  { instruction := "RUN".toList, value := "$A".toList, content := "RUN $A\n".toList }

/-- Mapping where the value substituted for A contains the variable B that
a later key of the same pass replaces. -/
def kvsC4 : List (Str × Str) := [(['A'], ['$', 'B']), (['B'], ['c'])]

/-- Dockerfile whose env value for A contains `$A` itself, defeating
idempotence of the ENV pass. -/
def dfC3 : Dockerfile :=
  { structure_ :=
      [ { instruction := "RUN".toList, value := "$A".toList, content := "RUN $A\n".toList } ],
    envs := [(['A'], "x$A".toList)], prev_env := [], filepath := [], parent_images := [] }

/-- Dockerfile where one ENV pass removes every variable occurrence. -/
def dfC3w : Dockerfile :=
  { structure_ :=
      [ { instruction := "RUN".toList, value := "$A".toList, content := "RUN $A\n".toList } ],
    envs := [(['A'], ['x'])], prev_env := [], filepath := [], parent_images := [] }

/-- Dockerfile where envs and prev_env both define N but the envs value is
`$N` itself, so an occurrence survives the envs sub-pass. -/
def dfC10 : Dockerfile :=
  { structure_ :=
      [ { instruction := "RUN".toList, value := "$N".toList, content := "RUN $N\n".toList } ],
    envs := [(['N'], "$N".toList)], prev_env := [(['N'], "other".toList)],
    filepath := [], parent_images := [] }

/-- Dockerfile where envs and prev_env share the name A and the envs pass
leaves no residual occurrence. -/
def dfC10w : Dockerfile :=
  { structure_ :=
      [ { instruction := "RUN".toList, value := "$A".toList, content := "RUN $A\n".toList } ],
    envs := [(['A'], "env".toList)], prev_env := [(['A'], "prev".toList)],
    filepath := [], parent_images := [] }

/-- Scenario input of C5: an ENV value that itself holds an ARG occurrence,
substituted by the ENV pass and then overwritten by the ARG pass. -/
def dfC5 : Dockerfile :=
  { structure_ :=
      [ { instruction := "RUN".toList, value := "$X".toList, content := "RUN $X\n".toList },
        { instruction := "ARG".toList, value := "V=2".toList, content := "ARG V=2\n".toList } ],
    envs := [(['X'], "${V}".toList)], prev_env := [], filepath := [], parent_images := [] }

/-- Git collaborator stub returning a fixed provenance comment. -/
def cgsC9 : Str → Str := fun _ => "myrepo@abc123".toList

/-- Dockerfile holding the two-token chown ADD line that crashes
`find_git_info`. -/
def dfC9 : Dockerfile :=
  { structure_ :=
      [ { instruction := "ADD".toList, value := "--chown=user:group".toList,
          content := "ADD --chown=user:group\n".toList } ],
    envs := [], prev_env := [], filepath := [], parent_images := [] }

/-- Inspection collaborator that fails every lookup. -/
def giC6 : Str → Option Unit := fun _ => none

/-- Digest collaborator stub for the failing-lookup scenarios. -/
def gdC6 : Unit → Str := fun _ => []

/-- Scenario input of C6: a FROM line carrying a stage alias, whose lookup
fails. -/
def dfC6 : Dockerfile :=
  { structure_ :=
      [ { instruction := "FROM".toList, value := "private/img:latest as builder".toList,
          content := "FROM private/img:latest as builder\n".toList } ],
    envs := [], prev_env := [], filepath := [],
    parent_images := ["private/img:latest".toList] }

/-- Scenario 4 input: a canonical FROM line whose lookup fails. -/
def dfC6w : Dockerfile :=
  { structure_ :=
      [ { instruction := "FROM".toList, value := "private/img:latest".toList,
          content := "FROM private/img:latest\n".toList } ],
    envs := [], prev_env := [], filepath := [],
    parent_images := ["private/img:latest".toList] }

/-- Dockerfile carrying an already pinned parent image. -/
def dfC7 : Dockerfile :=
  { structure_ := [], envs := [], prev_env := [], filepath := [],
    parent_images := ["ubuntu@sha256:abc".toList] }

/-- Inspection collaborator that would succeed if queried. -/
def giC7 : Str → Option Unit := fun _ => some ()

/-- Digest collaborator whose marker value would betray an unwanted call. -/
def gdC7 : Unit → Str := fun _ => "SHOULD-NOT-BE-USED".toList

/-- Dockerfile with one FROM and one RUN record, one parent image. -/
def dfC8 : Dockerfile :=
  { structure_ :=
      [ { instruction := "FROM".toList, value := "img".toList, content := "FROM img\n".toList },
        { instruction := "RUN".toList, value := ['x'], content := "RUN x\n".toList } ],
    envs := [], prev_env := [], filepath := [], parent_images := ["img".toList] }

/-- Inspection collaborator that succeeds on every lookup. -/
def giC8 : Str → Option Unit := fun _ => some ()

/-- Digest collaborator producing a fixed pinned string. -/
def gdC8 : Unit → Str := fun _ => "img@sha256:abc".toList

/-- ENV record for the round-trip witness. -/
def recC1a : InstructionRec :=
  { instruction := "ENV".toList, value := "PATH=$BASE/bin".toList,
    content := "ENV PATH=$BASE/bin\n".toList }

/-- ADD record for the round-trip witness. -/
def recC1b : InstructionRec :=
  { instruction := "ADD".toList, value := "./src /dst".toList,
    content := "ADD ./src /dst\n".toList }

theorem pyReplace_nil (p r : Str) : pyReplace p r [] = [] := by
  unfold pyReplace
  split <;> rfl

theorem pyReplaceF_fuel (p r : Str) :
    ∀ (f : Nat) (s : Str) (g : Nat), s.length ≤ f → s.length ≤ g →
      pyReplaceF p r f s = pyReplaceF p r g s := by
  intro f
  induction f with
  | zero =>
    intro s g hf _
    have hs : s = [] := List.length_eq_zero.mp (Nat.le_zero.mp hf)
    subst hs
    cases g <;> rfl
  | succ f ih =>
    intro s g hf hg
    cases s with
    | nil => cases g <;> rfl
    | cons c rest =>
      cases g with
      | zero =>
        simp only [List.length_cons] at hg
        omega
      | succ g' =>
        simp only [pyReplaceF]
        have hf' : rest.length ≤ f := by
          simp only [List.length_cons] at hf; omega
        have hg' : rest.length ≤ g' := by
          simp only [List.length_cons] at hg; omega
        by_cases hpre : p.isPrefixOf (c :: rest) = true
        · simp only [hpre, if_true]
          have hd : (rest.drop (p.length - 1)).length ≤ rest.length := by
            simp [List.length_drop]
          exact congrArg (r ++ ·) (ih _ g' (le_trans hd hf') (le_trans hd hg'))
        · simp only [if_neg hpre]
          exact congrArg (c :: ·) (ih rest g' hf' hg')

theorem pyReplace_cons (p r : Str) (hp : p ≠ []) (c : Char) (s : Str) :
    pyReplace p r (c :: s) =
      if p.isPrefixOf (c :: s) then r ++ pyReplace p r (s.drop (p.length - 1))
      else c :: pyReplace p r s := by
  unfold pyReplace
  simp only [if_neg hp, List.length_cons, pyReplaceF]
  by_cases hpre : p.isPrefixOf (c :: s) = true
  · simp only [hpre, if_true]
    congr 1
    exact pyReplaceF_fuel p r s.length _ _ (by simp [List.length_drop]) (le_refl _)
  · simp only [if_neg hpre]

theorem isPrefixOf_append_right (p x y : Str) (h : p.isPrefixOf x = true) :
    p.isPrefixOf (x ++ y) = true := by
  induction p generalizing x with
  | nil => simp [List.isPrefixOf]
  | cons a as ih =>
    cases x with
    | nil => simp [List.isPrefixOf] at h
    | cons b bs =>
      simp only [List.cons_append]
      simp only [List.isPrefixOf, Bool.and_eq_true] at h ⊢
      exact ⟨h.1, ih bs h.2⟩

theorem length_le_of_isPrefixOf (p x : Str) (h : p.isPrefixOf x = true) :
    p.length ≤ x.length := by
  induction p generalizing x with
  | nil => simp
  | cons a as ih =>
    cases x with
    | nil => simp [List.isPrefixOf] at h
    | cons b bs =>
      simp only [List.isPrefixOf, Bool.and_eq_true] at h
      simp only [List.length_cons]
      exact Nat.succ_le_succ (ih bs h.2)

theorem isPrefixOf_snoc_of_not_mem (p : Str) (e : Char) :
    ∀ x : Str, e ∉ p → p.isPrefixOf (x ++ [e]) = true → p.isPrefixOf x = true := by
  induction p with
  | nil => intro x _ _; simp [List.isPrefixOf]
  | cons a as ih =>
    intro x he h
    cases x with
    | nil =>
      exfalso
      simp only [List.nil_append, List.isPrefixOf, Bool.and_eq_true, beq_iff_eq] at h
      exact he (by simp [h.1])
    | cons b bs =>
      simp only [List.cons_append, List.isPrefixOf, Bool.and_eq_true] at h ⊢
      exact ⟨h.1, ih bs (fun hm => he (List.mem_cons_of_mem a hm)) h.2⟩

theorem drop_append_of_le {α : Type} (n : Nat) (x y : List α) (h : n ≤ x.length) :
    (x ++ y).drop n = x.drop n ++ y := by
  induction x generalizing n with
  | nil =>
    have : n = 0 := by simpa using h
    simp [this]
  | cons c xs ih =>
    cases n with
    | zero => simp
    | succ m =>
      simp only [List.cons_append, List.drop_succ_cons]
      exact ih m (by simpa using h)

theorem pyReplace_append_left (p r : Str) (h : Char) (hph : p.head? = some h) :
    ∀ a s : Str, h ∉ a → pyReplace p r (a ++ s) = a ++ pyReplace p r s := by
  have hp : p ≠ [] := by cases p <;> simp_all
  intro a
  induction a with
  | nil => intro s _; simp
  | cons c a' ih =>
    intro s ha
    have hc : c ≠ h := fun hch => ha (by simp [hch])
    have ha' : h ∉ a' := fun hm => ha (List.mem_cons_of_mem c hm)
    rw [List.cons_append, pyReplace_cons p r hp]
    rw [if_neg]
    · rw [ih s ha', List.cons_append]
    · intro hT
      cases p with
      | nil => exact hp rfl
      | cons p0 pt =>
        have hp0 : p0 = h := by simpa using hph
        simp only [List.isPrefixOf, Bool.and_eq_true, beq_iff_eq] at hT
        exact hc (hT.1 ▸ hp0.symm ▸ rfl)

theorem pyReplace_of_not_contains (p r : Str) (hp : p ≠ []) :
    ∀ s : Str, containsSub p s = false → pyReplace p r s = s := by
  intro s
  induction s with
  | nil => intro _; exact pyReplace_nil p r
  | cons c rest ih =>
    intro h
    simp only [containsSub, Bool.or_eq_false_iff] at h
    rw [pyReplace_cons p r hp, if_neg (by simp [h.1]), ih h.2]

theorem pyReplace_snoc_aux (p r : Str) (e : Char) (hp : p ≠ []) (he : e ∉ p) :
    ∀ (n : Nat) (b : Str), b.length ≤ n →
      pyReplace p r (b ++ [e]) = pyReplace p r b ++ [e] := by
  intro n
  induction n with
  | zero =>
    intro b hb
    have hbnil : b = [] := List.length_eq_zero.mp (Nat.le_zero.mp hb)
    subst hbnil
    rw [List.nil_append, pyReplace_nil, List.nil_append]
    apply pyReplace_of_not_contains p r hp
    cases p with
    | nil => exact absurd rfl hp
    | cons p0 pt =>
      simp only [containsSub, List.isPrefixOf, Bool.and_eq_true, Bool.or_eq_false_iff]
      constructor
      · simp only [Bool.and_eq_false_iff]
        by_cases h0 : p0 = e
        · right
          cases pt with
          | nil => exact absurd (by simp [h0]) he
          | cons q qt => simp [List.isPrefixOf]
        · left; simp [h0]
      · trivial
  | succ n ih =>
    intro b hb
    cases b with
    | nil =>
      rw [List.nil_append, pyReplace_nil, List.nil_append]
      apply pyReplace_of_not_contains p r hp
      cases p with
      | nil => exact absurd rfl hp
      | cons p0 pt =>
        simp only [containsSub, List.isPrefixOf, Bool.and_eq_true, Bool.or_eq_false_iff]
        constructor
        · simp only [Bool.and_eq_false_iff]
          by_cases h0 : p0 = e
          · right
            cases pt with
            | nil => exact absurd (by simp [h0]) he
            | cons q qt => simp [List.isPrefixOf]
          · left; simp [h0]
        · trivial
    | cons c rest =>
      rw [List.cons_append, pyReplace_cons p r hp, pyReplace_cons p r hp]
      by_cases hpre : p.isPrefixOf (c :: rest) = true
      · have hpre2 : p.isPrefixOf (c :: (rest ++ [e])) = true := by
          have h2 := isPrefixOf_append_right p (c :: rest) [e] hpre
          simpa using h2
        rw [if_pos hpre2, if_pos hpre]
        have hlen : p.length - 1 ≤ rest.length := by
          have h3 := length_le_of_isPrefixOf p (c :: rest) hpre
          simp only [List.length_cons] at h3; omega
        rw [drop_append_of_le _ _ _ hlen]
        have hlen2 : (rest.drop (p.length - 1)).length ≤ n := by
          simp only [List.length_drop]
          simp only [List.length_cons] at hb
          omega
        rw [ih _ hlen2, List.append_assoc]
      · have hpre2 : ¬p.isPrefixOf (c :: (rest ++ [e])) = true := by
          intro h2
          have h3 : p.isPrefixOf ((c :: rest) ++ [e]) = true := by simpa using h2
          exact hpre (isPrefixOf_snoc_of_not_mem p e (c :: rest) he h3)
        rw [if_neg hpre2, if_neg hpre]
        rw [ih rest (by simp only [List.length_cons] at hb; omega), List.cons_append]

theorem pyReplace_snoc (p r b : Str) (e : Char) (hp : p ≠ []) (he : e ∉ p) :
    pyReplace p r (b ++ [e]) = pyReplace p r b ++ [e] :=
  pyReplace_snoc_aux p r e hp he b.length b (le_refl _)

theorem pyReplace_wrap (p v instr value : Str) (hph : p.head? = some '$')
    (hnl : '\n' ∉ p) (hinstr : '$' ∉ instr) :
    pyReplace p v (instr ++ ' ' :: value ++ ['\n']) =
      instr ++ ' ' :: pyReplace p v value ++ ['\n'] := by
  have hp : p ≠ [] := by cases p <;> simp_all
  have hsp : '$' ∉ instr ++ [' '] := by
    intro hm
    rcases List.mem_append.mp hm with h1 | h2
    · exact hinstr h1
    · simp at h2
  calc pyReplace p v (instr ++ ' ' :: value ++ ['\n'])
      = pyReplace p v ((instr ++ [' ']) ++ (value ++ ['\n'])) := by simp
    _ = (instr ++ [' ']) ++ pyReplace p v (value ++ ['\n']) :=
        pyReplace_append_left p v '$' hph (instr ++ [' ']) (value ++ ['\n']) hsp
    _ = (instr ++ [' ']) ++ (pyReplace p v value ++ ['\n']) := by
        rw [pyReplace_snoc p v value '\n' hp hnl]
    _ = instr ++ ' ' :: pyReplace p v value ++ ['\n'] := by simp

theorem replace_env_step_content_ok (rec : InstructionRec) (kv : Str × Str)
    (hk : '\n' ∉ kv.1) (hinstr : '$' ∉ rec.instruction) (h : content_ok rec) :
    content_ok (replace_env_step rec kv) := by
  have h1 : '\n' ∉ varPatPlain kv.1 := by simp [varPatPlain, hk]
  have h2 : '\n' ∉ varPatBraced kv.1 := by simp [varPatBraced, hk]
  have hh1 : (varPatPlain kv.1).head? = some '$' := rfl
  have hh2 : (varPatBraced kv.1).head? = some '$' := rfl
  unfold content_ok replace_env_step at *
  simp only
  rw [h, pyReplace_wrap _ _ _ _ hh1 h1 hinstr, pyReplace_wrap _ _ _ _ hh2 h2 hinstr]

theorem replace_env_content_ok (kvs : List (Str × Str)) :
    ∀ rec : InstructionRec, '$' ∉ rec.instruction → (∀ kv ∈ kvs, '\n' ∉ kv.1) →
      content_ok rec → content_ok (replace_env kvs rec) := by
  induction kvs with
  | nil => intro rec _ _ h; exact h
  | cons kv kvs ih =>
    intro rec hinstr hk h
    unfold replace_env
    simp only [List.foldl_cons]
    exact ih (replace_env_step rec kv) hinstr
      (fun kv2 hm => hk kv2 (List.mem_cons_of_mem kv hm))
      (replace_env_step_content_ok rec kv (hk kv (List.mem_cons_self kv kvs)) hinstr h)

theorem replace_env_step_id (rec : InstructionRec) (kv : Str × Str)
    (hv : noVarIn kv.1 rec.value) (hc : noVarIn kv.1 rec.content) :
    replace_env_step rec kv = rec := by
  have hp1 : varPatPlain kv.1 ≠ [] := by simp [varPatPlain]
  have hp2 : varPatBraced kv.1 ≠ [] := by simp [varPatBraced]
  unfold replace_env_step
  rw [pyReplace_of_not_contains _ _ hp1 _ hc.1, pyReplace_of_not_contains _ _ hp2 _ hc.2,
    pyReplace_of_not_contains _ _ hp1 _ hv.1, pyReplace_of_not_contains _ _ hp2 _ hv.2]

theorem replace_env_id (kvs : List (Str × Str)) :
    ∀ rec : InstructionRec, (∀ kv ∈ kvs, noVarIn kv.1 rec.value ∧ noVarIn kv.1 rec.content) →
      replace_env kvs rec = rec := by
  induction kvs with
  | nil => intro rec _; rfl
  | cons kv kvs ih =>
    intro rec h
    unfold replace_env
    simp only [List.foldl_cons]
    rw [replace_env_step_id rec kv (h kv (List.mem_cons_self kv kvs)).1
      (h kv (List.mem_cons_self kv kvs)).2]
    exact ih rec (fun kv2 hm => h kv2 (List.mem_cons_of_mem kv hm))

theorem list_map_id {α : Type} (f : α → α) :
    ∀ l : List α, (∀ x ∈ l, f x = x) → l.map f = l := by
  intro l
  induction l with
  | nil => intro _; rfl
  | cons x xs ih =>
    intro h
    simp only [List.map_cons]
    rw [h x (List.mem_cons_self x xs), ih (fun y hy => h y (List.mem_cons_of_mem x hy))]

theorem apply_mapping_envs (m : List (Str × Str)) (d : Dockerfile) :
    (apply_mapping m d).envs = d.envs := by
  unfold apply_mapping; split <;> rfl

theorem apply_mapping_prev (m : List (Str × Str)) (d : Dockerfile) :
    (apply_mapping m d).prev_env = d.prev_env := by
  unfold apply_mapping; split <;> rfl

theorem apply_mapping_id (m : List (Str × Str)) (d : Dockerfile)
    (h : ∀ rec ∈ d.structure_, ∀ kv ∈ m, noVarIn kv.1 rec.value ∧ noVarIn kv.1 rec.content) :
    apply_mapping m d = d := by
  unfold apply_mapping
  split
  · rfl
  · rw [list_map_id _ _ (fun rec hrec => replace_env_id m rec (fun kv hkv => h rec hrec kv hkv))]

theorem drop_eq_getD_cons {α : Type} (d0 : α) :
    ∀ (l : List α) (n : Nat), n < l.length → l.drop n = l.getD n d0 :: l.drop (n + 1) := by
  intro l
  induction l with
  | nil => intro n h; simp at h
  | cons x xs ih =>
    intro n h
    cases n with
    | zero => simp [List.getD]
    | succ m =>
      have h' : m < xs.length := by simpa using h
      simp only [List.drop_succ_cons, List.getD_cons_succ]
      exact ih m h'

theorem pin_structure_from_values (ps : List Str) :
    ∀ (l : List InstructionRec) (n : Nat), n + countFROM l ≤ ps.length →
      ((pin_structure ps n l).filter (fun r => r.instruction == sFROM)).map (fun r => r.value) =
        (ps.drop n).take (countFROM l) := by
  intro l
  induction l with
  | nil => intro n h; simp [pin_structure, countFROM]
  | cons rec rest ih =>
    intro n h
    cases hf : (rec.instruction == sFROM) with
    | true =>
      have hcount : countFROM (rec :: rest) = countFROM rest + 1 := by
        simp [countFROM, List.filter_cons, hf]
      rw [hcount] at h
      have hn : n < ps.length := by omega
      simp only [pin_structure, hf, if_true]
      simp only [List.filter_cons, hf, if_true, List.map_cons]
      rw [hcount, drop_eq_getD_cons [] ps n hn, List.take_succ_cons]
      exact congrArg (ps.getD n [] :: ·) (ih (n + 1) (by omega))
    | false =>
      have hcount : countFROM (rec :: rest) = countFROM rest := by
        simp [countFROM, List.filter_cons, hf]
      rw [hcount] at h
      simp only [pin_structure, hf, Bool.false_eq_true, if_false]
      simp only [List.filter_cons, hf, Bool.false_eq_true, if_false, hcount]
      exact ih n h

theorem pin_structure_count (ps : List Str) :
    ∀ (l : List InstructionRec) (n : Nat), countFROM (pin_structure ps n l) = countFROM l := by
  intro l
  induction l with
  | nil => intro n; rfl
  | cons rec rest ih =>
    intro n
    cases hf : (rec.instruction == sFROM) with
    | true =>
      simp only [pin_structure, hf, if_true]
      simp only [countFROM, List.filter_cons, hf, if_true, List.length_cons]
      have h2 := ih (n + 1)
      simp only [countFROM] at h2
      rw [h2]
    | false =>
      simp only [pin_structure, hf, Bool.false_eq_true, if_false]
      simp only [countFROM, List.filter_cons, hf, Bool.false_eq_true, if_false]
      have h2 := ih n
      simp only [countFROM] at h2
      rw [h2]

theorem pin_structure_content_ok (ps : List Str) :
    ∀ (l : List InstructionRec) (n : Nat) (rec : InstructionRec),
      rec ∈ pin_structure ps n l → rec.instruction = sFROM → content_ok rec := by
  intro l
  induction l with
  | nil => intro n rec h _; simp [pin_structure] at h
  | cons r0 rest ih =>
    intro n rec hmem hfrom
    cases hf : (r0.instruction == sFROM) with
    | true =>
      simp only [pin_structure, hf, if_true] at hmem
      rcases List.mem_cons.mp hmem with h1 | h2
      · subst h1; unfold content_ok; simp
      · exact ih (n + 1) rec h2 hfrom
    | false =>
      simp only [pin_structure, hf, Bool.false_eq_true, if_false] at hmem
      rcases List.mem_cons.mp hmem with h1 | h2
      · exfalso
        subst h1
        rw [hfrom] at hf
        simp at hf
      · exact ih n rec h2 hfrom

theorem mem_listJoin {α : Type} {x : α} {s : List α} :
    ∀ {L : List (List α)}, x ∈ s → s ∈ L → x ∈ listJoin L := by
  intro L hx hs
  induction L with
  | nil => simp at hs
  | cons t ts ih =>
    simp only [listJoin]
    rcases List.mem_cons.mp hs with h1 | h2
    · exact List.mem_append_left _ (h1 ▸ hx)
    · exact List.mem_append_right _ (ih h2)


theorem dropWhile_eq_self_of_head {α : Type} (p : α → Bool) (l : List α)
    (h : ∀ y, l.head? = some y → p y = false) : l.dropWhile p = l := by
  cases l with
  | nil => rfl
  | cons x xs =>
    have hx : p x = false := h x rfl
    simp [List.dropWhile_cons, hx]

theorem pyStrip_snoc (c : Char) (l : Str)
    (h0 : ∀ y, l.head? = some y → y ≠ c) (h1 : ∀ y, l.getLast? = some y → y ≠ c) :
    pyStrip c (l ++ [c]) = l := by
  cases l with
  | nil => simp [pyStrip]
  | cons x xs =>
    have hx : x ≠ c := h0 x rfl
    have hrev : ((x :: xs).reverse).dropWhile (· = c) = (x :: xs).reverse := by
      apply dropWhile_eq_self_of_head
      intro y hy
      rw [List.head?_reverse] at hy
      simp [h1 y hy]
    unfold pyStrip
    have e1 : ((x :: xs) ++ [c]).dropWhile (· = c) = (x :: xs) ++ [c] := by
      apply dropWhile_eq_self_of_head
      intro y hy
      simp only [List.cons_append, List.head?_cons, Option.some.injEq] at hy
      subst hy
      simp [hx]
    rw [e1, List.reverse_append]
    have e2 : ([c] : Str).reverse ++ (x :: xs).reverse = c :: (x :: xs).reverse := by simp
    rw [e2, List.dropWhile_cons]
    rw [if_pos (by simp)]
    rw [hrev, List.reverse_reverse]

theorem annotate_add_content_ok (comment : Str) (rec : InstructionRec)
    (hadd : rec.instruction = sADD) (h : content_ok rec)
    (hv : rec.value.getLast? ≠ some '\n') :
    content_ok (annotate_add comment rec) := by
  have hstrip : pyStrip '\n' (rec.instruction ++ ' ' :: rec.value ++ ['\n']) =
      rec.instruction ++ ' ' :: rec.value := by
    have e0 : rec.instruction ++ ' ' :: rec.value ++ ['\n'] =
        (rec.instruction ++ ' ' :: rec.value) ++ ['\n'] := by simp
    rw [e0]
    apply pyStrip_snoc
    · intro y hy
      have hD : rec.instruction ++ ' ' :: rec.value = 'A' :: ('D' :: 'D' :: (' ' :: rec.value)) := by
        rw [hadd]; rfl
      rw [hD] at hy
      simp only [List.head?_cons, Option.some.injEq] at hy
      subst hy
      decide
    · intro y hy
      rw [List.getLast?_append_cons] at hy
      cases hval : rec.value with
      | nil =>
        rw [hval] at hy
        simp only [List.getLast?_singleton, Option.some.injEq] at hy
        subst hy
        decide
      | cons v vs =>
        rw [hval] at hy
        rw [List.getLast?_cons_cons] at hy
        intro hcy
        rw [hcy] at hy
        exact hv (hval ▸ hy)
  unfold content_ok annotate_add
  simp only
  rw [h, hstrip]
  simp [List.append_assoc]

theorem isPrefixOf_self (p : Str) : p.isPrefixOf p = true := by
  induction p with
  | nil => rfl
  | cons a as ih => simp [List.isPrefixOf, ih]

/-- C2: for the file `FROM python:${VER}` followed by `ARG VER=3.9`, the
ARG-expansion pass builds the ARG dictionary from the whole file before
substituting and then refreshes the parent images, so the parent image list
becomes `python:3.9` although the ARG line follows the FROM line. -/
theorem arg_dict_before_substitution_scenario :
    (expand_arg dfC2).parent_images = ["python:3.9".toList] := by decide

/-- C4 counterexample: with the mapping A maps-to `$B`, B maps-to `c`, the
text `$B` substituted for `$A` is rescanned by the later key of the same
`replace_env` pass and replaced again, so the final value is `c` rather
than the substituted text `$B`; substitution within one pass is therefore
not one-shot across keys, refuting the claim as stated. -/
theorem substituted_text_rescanned_cex :
    (replace_env kvsC4 recC4).value = ['c'] ∧ ('$' :: ['B'] : Str) ≠ ['c'] := by decide

/-- C4 (amended): each single replacement call is one-shot. When the scan
meets an occurrence of the pattern `p`, the replacement `r` is emitted and
scanning resumes after the occurrence, so `r` itself is never rescanned by
that call, whatever variables it contains; only the later replacements of
the same pass (the braced form of the same key and all later keys) rescan
substituted text. -/
theorem single_replace_one_shot (p r b : Str) (hp : p ≠ []) :
    pyReplace p r (p ++ b) = r ++ pyReplace p r b := by
  cases p with
  | nil => exact absurd rfl hp
  | cons p0 pt =>
    rw [List.cons_append, pyReplace_cons _ _ hp]
    rw [if_pos]
    · have hlen : (p0 :: pt).length - 1 = pt.length := by simp
      rw [hlen, List.drop_left]
    · have h0 := isPrefixOf_append_right (p0 :: pt) (p0 :: pt) b (isPrefixOf_self (p0 :: pt))
      exact h0

/-- C4 witness: the one-shot property applied at a pattern whose
replacement contains the pattern itself. -/
theorem single_replace_one_shot_witness :
    pyReplace ['$', 'A'] "x$A".toList (['$', 'A'] ++ ['!']) =
      "x$A".toList ++ pyReplace ['$', 'A'] "x$A".toList ['!'] :=
  single_replace_one_shot ['$', 'A'] "x$A".toList ['!'] (by decide)

/-- C3 counterexample: with the env value for A being `x$A`, the ENV pass is
not idempotent: the first pass turns `$A` into `x$A`, the second into
`xx$A`. -/
theorem expand_vars_not_idempotent_cex :
    expand_vars (expand_vars dfC3) ≠ expand_vars dfC3 := by decide

/-- C3 (amended): the substitution pass is idempotent whenever its first
application leaves no `$KEY` or braced occurrence, for any key of the
mappings, in any record's value or content; a second application is then
the identity. -/
theorem expand_vars_idempotent_of_no_residual (d : Dockerfile)
    (h : ∀ rec ∈ (expand_vars d).structure_, ∀ kv ∈ d.envs ++ d.prev_env,
      noVarIn kv.1 rec.value ∧ noVarIn kv.1 rec.content) :
    expand_vars (expand_vars d) = expand_vars d := by
  have henv : (expand_vars d).envs = d.envs := by
    unfold expand_vars; rw [apply_mapping_envs, apply_mapping_envs]
  have hprev : (expand_vars d).prev_env = d.prev_env := by
    unfold expand_vars; rw [apply_mapping_prev, apply_mapping_prev]
  show apply_mapping (expand_vars d).prev_env
      (apply_mapping (expand_vars d).envs (expand_vars d)) = expand_vars d
  have h1 : apply_mapping (expand_vars d).envs (expand_vars d) = expand_vars d := by
    apply apply_mapping_id
    intro rec hrec kv hkv
    rw [henv] at hkv
    exact h rec hrec kv (List.mem_append_left _ hkv)
  rw [h1]
  apply apply_mapping_id
  intro rec hrec kv hkv
  rw [hprev] at hkv
  exact h rec hrec kv (List.mem_append_right _ hkv)

/-- C3 witness: a pass whose output has no residual occurrence is
idempotent. -/
theorem expand_vars_idempotent_of_no_residual_witness :
    expand_vars (expand_vars dfC3w) = expand_vars dfC3w :=
  expand_vars_idempotent_of_no_residual dfC3w (by decide)

/-- C10 counterexample: envs maps N to `$N` itself, so the envs sub-pass
leaves the occurrence in place and the prev_env sub-pass then substitutes
the prev_env value `other`; the final value is not the envs value,
refuting the claim as stated. -/
theorem prev_env_overrides_envs_cex :
    ((expand_vars dfC10).structure_.getD 0 recDflt).value = "other".toList ∧
      "other".toList ≠ "$N".toList := by decide

/-- C10 (amended): when the envs sub-pass leaves no occurrence of any
prev_env key in any record, the prev_env sub-pass is the identity, so
`expand_vars` substitutes exactly the envs values; in particular a name
defined in both mappings receives its envs value. -/
theorem env_pass_wins_of_no_residual (d : Dockerfile)
    (h : ∀ rec ∈ (apply_mapping d.envs d).structure_, ∀ kv ∈ d.prev_env,
      noVarIn kv.1 rec.value ∧ noVarIn kv.1 rec.content) :
    expand_vars d = apply_mapping d.envs d := by
  unfold expand_vars
  exact apply_mapping_id _ _ h

/-- C10 witness: with A defined in both mappings and no residual occurrence
after the envs sub-pass, the envs value is the one substituted. -/
theorem env_pass_wins_of_no_residual_witness :
    expand_vars dfC10w = apply_mapping dfC10w.envs dfC10w ∧
      ((expand_vars dfC10w).structure_.getD 0 recDflt).value = "env".toList :=
  ⟨env_pass_wins_of_no_residual dfC10w (by decide), by decide⟩

/-- C9: evaluation of the code at the bug. For `ADD ./src` (two tokens, no
chown) the parser logs the malformed-line error and still returns a comment
line, as the claim says; but for the chown form `ADD --chown=user:group`
(two tokens) the code logs the error and then reads the third token
unconditionally, raising IndexError, modelled by `none`, and the
annotation pass aborts instead of emitting an annotated line. -/
theorem add_malformed_line_behavior :
    find_git_info cgsC9 "ADD ./src\n".toList [] =
        some ("myrepo@abc123".toList, [invalid_add_msg]) ∧
      find_git_info cgsC9 "ADD --chown=user:group\n".toList [] = none ∧
      expand_add_command cgsC9 dfC9 = none := by decide

/-- C5: the driver order is the ENV pass then the ARG pass; whenever the
ARG dictionary is non-empty the final structure is the ARG substitution
applied on top of the ENV pass output, so ARG values overwrite text the
ENV pass substituted while nothing runs after the ARG pass; concretely,
the ENV pass turns `$X` into the braced occurrence of V and the ARG pass
then overwrites it with 2. -/
theorem env_pass_then_arg_pass :
    (∀ d : Dockerfile, expand_all d = expand_arg (expand_vars d)) ∧
    (∀ d : Dockerfile, build_arg_dict (expand_vars d).structure_ ≠ [] →
      (expand_all d).structure_ =
        ((expand_vars d).structure_).map
          (replace_env (build_arg_dict (expand_vars d).structure_))) ∧
    ((expand_vars dfC5).structure_.getD 0 recDflt).value = "${V}".toList ∧
    ((expand_all dfC5).structure_.getD 0 recDflt).value = ['2'] := by
  refine ⟨fun d => rfl, fun d h => ?_, by decide, by decide⟩
  unfold expand_all expand_arg update_parent_images apply_mapping
  rw [if_neg h]

/-- C5 witness: the ARG-substitution-last shape at the concrete scenario. -/
theorem env_pass_then_arg_pass_witness :
    (expand_all dfC5).structure_ =
      ((expand_vars dfC5).structure_).map
        (replace_env (build_arg_dict (expand_vars dfC5).structure_)) :=
  env_pass_then_arg_pass.2.1 dfC5 (by decide)

/-- C7: a parent image reference parsed with both digest fields set is
never queried: its resolution step issues no `get_image` query, logs
nothing, and leaves the entry untouched, and the pinning pass keeps the
entry unchanged. -/
theorem pinned_reference_not_queried {α : Type} (gi : Str → Option α) (gd : α → Str)
    (d : Dockerfile) (i : Nat) (s : Str) (hi : d.parent_images[i]? = some s)
    (h1 : (parse_image_string s).digest_type ≠ []) (h2 : (parse_image_string s).digest ≠ []) :
    resolve_image gi gd s = (s, [], []) ∧
      (expand_from_images gi gd d).dfobj.parent_images[i]? = some s := by
  have hres : resolve_image gi gd s = (s, [], []) := by
    unfold resolve_image
    rw [if_neg]
    intro hcon
    exact h1 hcon.1
  refine ⟨hres, ?_⟩
  show ((d.parent_images.map (resolve_image gi gd)).map (fun t => t.1))[i]? = some s
  rw [List.getElem?_map, List.getElem?_map, hi]
  simp [hres]

/-- C7 witness: an already pinned reference with an always-succeeding
collaborator. -/
theorem pinned_reference_not_queried_witness :
    resolve_image giC7 gdC7 "ubuntu@sha256:abc".toList =
        ("ubuntu@sha256:abc".toList, [], []) ∧
      (expand_from_images giC7 gdC7 dfC7).dfobj.parent_images[0]? =
        some "ubuntu@sha256:abc".toList :=
  pinned_reference_not_queried giC7 gdC7 dfC7 0 "ubuntu@sha256:abc".toList
    (by decide) (by decide) (by decide)

/-- C6 counterexample: every lookup fails, yet the FROM line is not left
unchanged: the pinning pass rewrites it canonically and drops the stage
alias `as builder`, refuting the claim as stated. -/
theorem from_line_changed_on_failure_cex :
    giC6 (lookup_query "private/img:latest".toList) = none ∧
      ((expand_from_images giC6 gdC6 dfC6).dfobj.structure_.getD 0 recDflt).content =
        "FROM private/img:latest\n".toList ∧
      (dfC6.structure_.getD 0 recDflt).content =
        "FROM private/img:latest as builder\n".toList ∧
      "FROM private/img:latest\n".toList ≠
        "FROM private/img:latest as builder\n".toList := by decide

/-- C6 (amended): when the lookup of an unpinned reference fails, the pass
does not abort: it logs the error naming the reference, leaves the
parent-image entry unchanged, and rewrites every FROM record to the
canonical form keyword-space-entry-newline, which coincides with the
original line exactly when the line already had that canonical form. -/
theorem lookup_failure_nonfatal {α : Type} (gi : Str → Option α) (gd : α → Str)
    (d : Dockerfile) (i : Nat) (s : Str) (hi : d.parent_images[i]? = some s)
    (h1 : (parse_image_string s).digest_type = []) (h2 : (parse_image_string s).digest = [])
    (hfail : gi (lookup_query s) = none) :
    (expand_from_images gi gd d).dfobj.parent_images[i]? = some s ∧
      pin_error_msg s ∈ (expand_from_images gi gd d).errors ∧
      (∀ rec ∈ (expand_from_images gi gd d).dfobj.structure_,
        rec.instruction = sFROM → content_ok rec) := by
  have hres : resolve_image gi gd s = (s, [lookup_query s], [pin_error_msg s]) := by
    unfold resolve_image
    rw [if_pos ⟨h1, h2⟩, hfail]
  refine ⟨?_, ?_, ?_⟩
  · show ((d.parent_images.map (resolve_image gi gd)).map (fun t => t.1))[i]? = some s
    rw [List.getElem?_map, List.getElem?_map, hi]
    simp [hres]
  · show pin_error_msg s ∈
      listJoin ((d.parent_images.map (resolve_image gi gd)).map (fun t => t.2.2))
    have hsmem : s ∈ d.parent_images := List.getElem?_mem hi
    have h3 : resolve_image gi gd s ∈ d.parent_images.map (resolve_image gi gd) :=
      List.mem_map_of_mem _ hsmem
    have h4 : (resolve_image gi gd s).2.2 ∈
        (d.parent_images.map (resolve_image gi gd)).map (fun t => t.2.2) :=
      List.mem_map_of_mem _ h3
    rw [hres] at h4
    exact mem_listJoin (by simp) h4
  · intro rec hrec hfrom
    exact pin_structure_content_ok _ d.structure_ 0 rec hrec hfrom

/-- C6 witness: Scenario 4, a canonical FROM line whose lookup fails. -/
theorem lookup_failure_nonfatal_witness :
    (expand_from_images giC6 gdC6 dfC6w).dfobj.parent_images[0]? =
        some "private/img:latest".toList ∧
      pin_error_msg "private/img:latest".toList ∈
        (expand_from_images giC6 gdC6 dfC6w).errors ∧
      (∀ rec ∈ (expand_from_images giC6 gdC6 dfC6w).dfobj.structure_,
        rec.instruction = sFROM → content_ok rec) :=
  lookup_failure_nonfatal giC6 gdC6 dfC6w 0 "private/img:latest".toList
    (by decide) (by decide) (by decide) (by decide)

/-- C8: refreshing the parent images makes their number equal the number of
FROM records; the pinning pass preserves both counts; and under the length
invariant the FROM records of the pinned structure carry, in original
order, exactly the entries of the pinned parent-image list. -/
theorem parent_images_positional_invariant :
    (∀ d : Dockerfile,
      (update_parent_images d).parent_images.length =
        countFROM (update_parent_images d).structure_) ∧
    (∀ {α : Type} (gi : Str → Option α) (gd : α → Str) (d : Dockerfile),
      (expand_from_images gi gd d).dfobj.parent_images.length = d.parent_images.length ∧
        countFROM (expand_from_images gi gd d).dfobj.structure_ = countFROM d.structure_) ∧
    (∀ {α : Type} (gi : Str → Option α) (gd : α → Str) (d : Dockerfile),
      d.parent_images.length = countFROM d.structure_ →
        ((expand_from_images gi gd d).dfobj.structure_.filter
            (fun r => r.instruction == sFROM)).map (fun r => r.value) =
          (expand_from_images gi gd d).dfobj.parent_images) := by
  refine ⟨?_, ?_, ?_⟩
  · intro d
    show ((d.structure_.filter (fun r => r.instruction == sFROM)).map
        (fun r => upto_as r.value)).length = countFROM d.structure_
    simp [countFROM]
  · intro α gi gd d
    constructor
    · show ((d.parent_images.map (resolve_image gi gd)).map (fun t => t.1)).length =
        d.parent_images.length
      simp
    · exact pin_structure_count _ d.structure_ 0
  · intro α gi gd d h
    have hlen : ((d.parent_images.map (resolve_image gi gd)).map (fun t => t.1)).length =
        countFROM d.structure_ := by
      simp [h]
    show ((pin_structure ((d.parent_images.map (resolve_image gi gd)).map (fun t => t.1))
          0 d.structure_).filter (fun r => r.instruction == sFROM)).map (fun r => r.value) =
      (d.parent_images.map (resolve_image gi gd)).map (fun t => t.1)
    rw [pin_structure_from_values _ d.structure_ 0 (by rw [hlen]; omega)]
    rw [List.drop_zero, ← hlen, List.take_length]

/-- C8 witness: one FROM and one RUN record with a matching parent list. -/
theorem parent_images_positional_invariant_witness :
    ((expand_from_images giC8 gdC8 dfC8).dfobj.structure_.filter
        (fun r => r.instruction == sFROM)).map (fun r => r.value) =
      (expand_from_images giC8 gdC8 dfC8).dfobj.parent_images :=
  parent_images_positional_invariant.2.2 giC8 gdC8 dfC8 (by decide)

/-- C1: every mutation of this system keeps the content line reconstructible
as keyword-space-value-newline: `replace_env` preserves the invariant
whenever the directive keyword has no dollar sign and no key carries a
newline; `expand_package` re-establishes it unconditionally;
`expand_from_images` establishes it for every FROM record it rewrites; and
the ADD annotation preserves it (the appended comment lands in both value
and content) whenever the value has no trailing newline. -/
theorem content_roundtrip_invariant :
    (∀ (kvs : List (Str × Str)) (rec : InstructionRec),
      '$' ∉ rec.instruction → (∀ kv ∈ kvs, '\n' ∉ kv.1) → content_ok rec →
        content_ok (replace_env kvs rec)) ∧
    (∀ (rec : InstructionRec) (package version sep : Str),
      content_ok (expand_package rec package version sep)) ∧
    (∀ {α : Type} (gi : Str → Option α) (gd : α → Str) (d : Dockerfile),
      ∀ rec ∈ (expand_from_images gi gd d).dfobj.structure_,
        rec.instruction = sFROM → content_ok rec) ∧
    (∀ (comment : Str) (rec : InstructionRec),
      rec.instruction = sADD → content_ok rec → rec.value.getLast? ≠ some '\n' →
        content_ok (annotate_add comment rec)) := by
  refine ⟨?_, ?_, ?_, ?_⟩
  · intro kvs rec h1 h2 h3
    exact replace_env_content_ok kvs rec h1 h2 h3
  · intro rec package version sep
    rfl
  · intro α gi gd d rec hrec hfrom
    exact pin_structure_content_ok _ d.structure_ 0 rec hrec hfrom
  · intro comment rec h1 h2 h3
    exact annotate_add_content_ok comment rec h1 h2 h3

/-- C1 witness: the invariant after a substitution on an ENV record and
after annotating an ADD record. -/
theorem content_roundtrip_invariant_witness :
    content_ok (replace_env [("BASE".toList, "/usr".toList)] recC1a) ∧
      content_ok (annotate_add "myrepo@abc123".toList recC1b) :=
  ⟨content_roundtrip_invariant.1 [("BASE".toList, "/usr".toList)] recC1a
      (by decide) (by decide) (by decide),
    content_roundtrip_invariant.2.2.2 "myrepo@abc123".toList recC1b
      (by decide) (by decide) (by decide)⟩
